import Mathlib

/-!
Shallow embedding of `src/app/pagespec.py` from the `Individul/pdf` repository.

The Python module defines:
  * `PageSpecError` — the validation error class;
  * `parse_pagespec(spec, total_pages)` — parses a comma-separated page
    specification (single pages and `start-end` ranges) into a sorted list of
    unique 1-based page numbers;
  * `pages_to_keep(spec, total_pages, mode)` — resolves the parse result into
    a keep-list for `"extract"` and `"delete"` modes, raising `ValueError` on
    any other mode.

Strings are embedded as `List Char`.  Python's `str.strip` is embedded as
`pyStrip`, `str.split(c)` as `splitOnChar c`, and `int(...)` as
`pyIntOfChars` (optional sign, ASCII digits with Python's underscore-grouping
rule; non-ASCII decimal digits, which CPython would also accept, are outside
the embedded character set).  The Python `set` of pages is embedded as a
duplicate-free `List ℕ` whose only mutation is `setInsert` (`set.add`:
insert if absent), and `sorted(...)` as `List.insertionSort (· ≤ ·)`;
both are representation-faithful: membership, emptiness and the sorted
output agree with the Python set operations.

Each `raise` site of the Python module is one constructor of `SpecErr`
(for `PageSpecError`) or the `valueError` constructor of `PyErr`
(for `ValueError`); exceptions are embedded as `Except`.
-/

/-- The distinct `PageSpecError` raise sites of `pagespec.py`, in source
order.  Each constructor carries the data interpolated into the Python
message. -/
inductive SpecErr where
  /-- "Page specification cannot be empty" -/
  | emptySpec : SpecErr
  /-- "Invalid range format: '{part}'" -/
  | invalidRangeFormat (part : List Char) : SpecErr
  /-- "Invalid numbers in range: '{part}'" -/
  | invalidNumbersInRange (part : List Char) : SpecErr
  /-- "Page numbers must be positive (found in '{part}')" -/
  | nonPositiveRange (part : List Char) : SpecErr
  /-- "Range start cannot be greater than end: {start}-{end}" -/
  | rangeStartGreaterEnd (s e : Int) : SpecErr
  /-- "Page {page} exceeds total pages ({total_pages})" -/
  | pageExceedsTotal (page total : Nat) : SpecErr
  /-- "Invalid page number: '{part}'" -/
  | invalidPageNumber (part : List Char) : SpecErr
  /-- "Page number must be positive: {page}" -/
  | nonPositivePage (page : Int) : SpecErr
  /-- "No valid pages found in specification" -/
  | noValidPages : SpecErr
  /-- "Cannot delete all pages from PDF" -/
  | cannotDeleteAll : SpecErr
deriving DecidableEq

/-- The exception classes `pages_to_keep` can raise: the module's own
`PageSpecError` (user-input validation) and Python's built-in `ValueError`
("Invalid mode: {mode}", a programmer error). -/
inductive PyErr where
  | pageSpecError (e : SpecErr) : PyErr
  | valueError (mode : List Char) : PyErr
deriving DecidableEq

instance {ε α : Type} [DecidableEq ε] [DecidableEq α] : DecidableEq (Except ε α) := fun x y =>
  match x, y with
  | .ok a, .ok b =>
    if h : a = b then isTrue (by rw [h]) else isFalse (fun hc => h (Except.ok.inj hc))
  | .error a, .error b =>
    if h : a = b then isTrue (by rw [h]) else isFalse (fun hc => h (Except.error.inj hc))
  | .ok _, .error _ => isFalse (fun hc => Except.noConfusion hc)
  | .error _, .ok _ => isFalse (fun hc => Except.noConfusion hc)

/-- `True` exactly for the `ValueError` class, `False` for `PageSpecError`. -/
def PyErr.isValueError : PyErr → Bool
  | .valueError _ => true
  | .pageSpecError _ => false

/-- Python `str.strip()`: drop leading and trailing whitespace. -/
def pyStrip (s : List Char) : List Char :=
  ((s.dropWhile Char.isWhitespace).reverse.dropWhile Char.isWhitespace).reverse

/-- Python `str.split(c)` for a one-character separator: every occurrence
splits, empty pieces are kept, and the result is never the empty list. -/
def splitOnChar (c : Char) : List Char → List (List Char)
  | [] => [[]]
  | x :: xs =>
    if x = c then [] :: splitOnChar c xs
    else
      match splitOnChar c xs with
      | [] => [[x]]
      | t :: ts => (x :: t) :: ts

/-- Tail of a Python integer literal body after its first digit: digits,
with each underscore occurring between two digits. -/
def pyIntDigitsRest : List Char → Bool
  | [] => true
  | c :: rest =>
    if c.isDigit then pyIntDigitsRest rest
    else if c = '_' then
      match rest with
      | [] => false
      | d :: rest2 => d.isDigit && pyIntDigitsRest rest2
    else false

/-- Body of a Python integer literal (no sign): nonempty, starts with a
digit, underscores only between digits. -/
def pyIntBody : List Char → Bool
  | [] => false
  | c :: rest => c.isDigit && pyIntDigitsRest rest

/-- Numeric value of a digit-and-underscore body, accumulator style
(underscores are skipped, as in CPython's parser). -/
def digitsVal : List Char → Nat → Nat
  | [], acc => acc
  | c :: rest, acc =>
    if c = '_' then digitsVal rest acc
    else digitsVal rest (acc * 10 + (c.toNat - '0'.toNat))

/-- Python `int(s)` on a text string: strip whitespace, optional single
`+`/`-` sign, then a digit body; `none` embeds `ValueError`. -/
def pyIntOfChars (s : List Char) : Option Int :=
  let t := pyStrip s
  match t with
  | '+' :: rest => if pyIntBody rest then some ((digitsVal rest 0 : Nat) : Int) else none
  | '-' :: rest => if pyIntBody rest then some (-((digitsVal rest 0 : Nat) : Int)) else none
  | _ => if pyIntBody t then some ((digitsVal t 0 : Nat) : Int) else none

/-- Python `set.add`: insert the element unless already present. -/
def setInsert (p : Nat) (pages : List Nat) : List Nat :=
  if p ∈ pages then pages else p :: pages

/-- The range-expansion loop of `parse_pagespec`
(`for page in range(start, end + 1): ...`): each page is checked against
`total` and inserted; the loop fails on the first page exceeding `total`.
Called with the list `List.range' start (end + 1 - start)`, the embedding
of Python's `range(start, end + 1)`. -/
def expandLoop (total : Nat) : List Nat → List Nat → Except SpecErr (List Nat)
  | [], pages => .ok pages
  | p :: rest, pages =>
    if p > total then .error (.pageExceedsTotal p total)
    else expandLoop total rest (setInsert p pages)

/-- The body of `parse_pagespec`'s `for part in parts` loop for one part:
strip; skip if empty; range branch if the part contains `-`; otherwise the
single-page branch. -/
def processPart (total : Nat) (pages : List Nat) (part0 : List Char) :
    Except SpecErr (List Nat) :=
  if (pyStrip part0).isEmpty then .ok pages
  else if (pyStrip part0).contains '-' then
    match splitOnChar '-' (pyStrip part0) with
    | [s0, e0] =>
      if (pyStrip s0).isEmpty || (pyStrip e0).isEmpty then
        .error (.invalidRangeFormat (pyStrip part0))
      else
        match pyIntOfChars (pyStrip s0), pyIntOfChars (pyStrip e0) with
        | some start, some stop =>
          if start ≤ 0 ∨ stop ≤ 0 then .error (.nonPositiveRange (pyStrip part0))
          else if start > stop then .error (.rangeStartGreaterEnd start stop)
          else expandLoop total (List.range' start.toNat (stop.toNat + 1 - start.toNat)) pages
        | _, _ => .error (.invalidNumbersInRange (pyStrip part0))
    | _ => .error (.invalidRangeFormat (pyStrip part0))
  else
    match pyIntOfChars (pyStrip part0) with
    | none => .error (.invalidPageNumber (pyStrip part0))
    | some page =>
      if page ≤ 0 then .error (.nonPositivePage page)
      else if page > (total : Int) then .error (.pageExceedsTotal page.toNat total)
      else .ok (setInsert page.toNat pages)

/-- The whole `for part in parts` loop, threading the `pages` set. -/
def processParts (total : Nat) : List (List Char) → List Nat → Except SpecErr (List Nat)
  | [], pages => .ok pages
  | part :: rest, pages =>
    match processPart total pages part with
    | .error e => .error e
    | .ok pages1 => processParts total rest pages1

/-- `parse_pagespec(spec, total_pages)`: empty check, strip, split on
commas, process every part, reject an empty result, return the sorted
list of the page set. -/
def parse_pagespec (spec : List Char) (total : Nat) : Except SpecErr (List Nat) :=
  if (pyStrip spec).isEmpty then .error .emptySpec
  else
    match processParts total (splitOnChar ',' (pyStrip spec)) [] with
    | .error e => .error e
    | .ok pages =>
      if pages = [] then .error .noValidPages
      else .ok (pages.insertionSort (· ≤ ·))

/-- `pages_to_keep(spec, total_pages, mode)`: parse, then return the parse
result for `"extract"`, the ascending complement for `"delete"` (failing
when it is empty), and `ValueError` for any other mode. -/
def pages_to_keep (spec : List Char) (total : Nat) (mode : List Char) :
    Except PyErr (List Nat) :=
  match parse_pagespec spec total with
  | .error e => .error (.pageSpecError e)
  | .ok specified_pages =>
    if mode = "extract".toList then .ok specified_pages
    else if mode = "delete".toList then
      let keep_pages := (List.range' 1 total).filter (fun p => !(specified_pages.contains p))
      if keep_pages = [] then .error (.pageSpecError .cannotDeleteAll)
      else .ok (keep_pages.insertionSort (· ≤ ·))
    else .error (.valueError mode)

/-! ### Helper lemmas about the string primitives -/

theorem mem_pyStrip {x : Char} {s : List Char} (h : x ∈ pyStrip s) : x ∈ s := by
  unfold pyStrip at h
  rw [List.mem_reverse] at h
  have h1 := (List.dropWhile_sublist (l := (s.dropWhile Char.isWhitespace).reverse)
    (p := Char.isWhitespace)).mem h
  rw [List.mem_reverse] at h1
  exact (List.dropWhile_sublist (l := s) (p := Char.isWhitespace)).mem h1

theorem mem_of_mem_dropWhile {x : Char} {p : Char → Bool} {s : List Char}
    (h : x ∈ s.dropWhile p) : x ∈ s :=
  (List.dropWhile_sublist (l := s) (p := p)).mem h

theorem all_dropWhile_iff {p : Char → Bool} {s : List Char} :
    (∀ x ∈ s.dropWhile p, p x = true) ↔ ∀ x ∈ s, p x = true := by
  constructor
  · intro h x hx
    rw [← List.takeWhile_append_dropWhile (p := p) (l := s)] at hx
    rcases List.mem_append.1 hx with h1 | h1
    · exact List.mem_takeWhile_imp h1
    · exact h x h1
  · intro h x hx
    exact h x (mem_of_mem_dropWhile hx)

theorem pyStrip_isEmpty_eq (s : List Char) :
    (pyStrip s).isEmpty = s.all Char.isWhitespace := by
  rcases h : List.all s Char.isWhitespace with hh | hh
  · rw [List.all_eq_false] at h
    obtain ⟨x, hx, hpx⟩ := h
    have hx1 : x ∈ pyStrip s := by
      unfold pyStrip
      rw [List.mem_reverse]
      have hd : x ∈ s.dropWhile Char.isWhitespace := by
        by_contra hc
        rw [← List.takeWhile_append_dropWhile (p := Char.isWhitespace) (l := s)] at hx
        rcases List.mem_append.1 hx with h1 | h1
        · exact hpx (List.mem_takeWhile_imp h1)
        · exact hc h1
      have hdr : x ∈ (s.dropWhile Char.isWhitespace).reverse := List.mem_reverse.2 hd
      by_contra hc
      rw [← List.takeWhile_append_dropWhile (p := Char.isWhitespace)
        (l := (s.dropWhile Char.isWhitespace).reverse)] at hdr
      rcases List.mem_append.1 hdr with h1 | h1
      · exact hpx (List.mem_takeWhile_imp h1)
      · exact hc h1
    rcases he : (pyStrip s).isEmpty with he1 | he1
    · rfl
    · rw [List.isEmpty_iff] at he
      rw [he] at hx1
      cases hx1
  · rw [List.all_eq_true] at h
    have h1 : pyStrip s = [] := by
      unfold pyStrip
      rw [List.reverse_eq_nil_iff, List.dropWhile_eq_nil_iff]
      intro x hx
      rw [List.mem_reverse] at hx
      exact h x (mem_of_mem_dropWhile hx)
    rw [h1]
    rfl

theorem pyStrip_all_eq {p : Char → Bool} (hws : ∀ c, c.isWhitespace = true → p c = true)
    (s : List Char) : s.all p = (pyStrip s).all p := by
  rcases h : s.all p with hh | hh
  · rw [List.all_eq_false] at h
    obtain ⟨x, hx, hpx⟩ := h
    have hx1 : x ∈ pyStrip s := by
      unfold pyStrip
      rw [List.mem_reverse]
      have hd : x ∈ s.dropWhile Char.isWhitespace := by
        by_contra hc
        rw [← List.takeWhile_append_dropWhile (p := Char.isWhitespace) (l := s)] at hx
        rcases List.mem_append.1 hx with h1 | h1
        · exact hpx (hws x (List.mem_takeWhile_imp h1))
        · exact hc h1
      have hdr : x ∈ (s.dropWhile Char.isWhitespace).reverse := List.mem_reverse.2 hd
      by_contra hc
      rw [← List.takeWhile_append_dropWhile (p := Char.isWhitespace)
        (l := (s.dropWhile Char.isWhitespace).reverse)] at hdr
      rcases List.mem_append.1 hdr with h1 | h1
      · exact hpx (hws x (List.mem_takeWhile_imp h1))
      · exact hc h1
    symm
    rw [List.all_eq_false]
    exact ⟨x, hx1, hpx⟩
  · rw [List.all_eq_true] at h
    symm
    rw [List.all_eq_true]
    intro x hx
    exact h x (mem_pyStrip hx)

theorem splitOnChar_ne_nil (c : Char) (s : List Char) : splitOnChar c s ≠ [] := by
  cases s with
  | nil => simp [splitOnChar]
  | cons x xs =>
    unfold splitOnChar
    split
    · simp
    · split <;> simp

theorem all_splitOnChar_all_ws (c : Char) (s : List Char) :
    ((splitOnChar c s).all fun p => p.all Char.isWhitespace)
      = s.all (fun ch => (ch = c) || ch.isWhitespace) := by
  induction s with
  | nil => rfl
  | cons x xs ih =>
    unfold splitOnChar
    by_cases hx : x = c
    · rw [if_pos hx]
      simp only [List.all_cons, List.all_nil, Bool.true_and, ih, hx]
      simp
    · rw [if_neg hx]
      rcases hsp : splitOnChar c xs with _ | ⟨t, ts⟩
      · exact absurd hsp (splitOnChar_ne_nil c xs)
      · rw [hsp] at ih
        simp only [List.all_cons, ← ih]
        have hxc : (decide (x = c) || x.isWhitespace) = x.isWhitespace := by
          simp [hx]
        rw [hxc]
        simp [Bool.and_assoc]

/-! ### Helper lemmas about the page-set primitives -/

theorem mem_setInsert {x p : Nat} {pages : List Nat} :
    x ∈ setInsert p pages ↔ x = p ∨ x ∈ pages := by
  unfold setInsert
  split
  · constructor
    · intro h
      exact Or.inr h
    · rintro (rfl | h)
      · assumption
      · exact h
  · simp [List.mem_cons]

theorem setInsert_nodup {p : Nat} {pages : List Nat} (h : pages.Nodup) :
    (setInsert p pages).Nodup := by
  unfold setInsert
  split
  · exact h
  · exact List.nodup_cons.2 ⟨by assumption, h⟩

theorem setInsert_ne_nil (p : Nat) (pages : List Nat) : setInsert p pages ≠ [] := by
  unfold setInsert
  split
  · intro hc
    subst hc
    simp at *
  · simp

theorem subset_setInsert (p : Nat) (pages : List Nat) : pages ⊆ setInsert p pages := by
  intro x hx
  exact mem_setInsert.2 (Or.inr hx)

theorem mem_setInsert_self (p : Nat) (pages : List Nat) : p ∈ setInsert p pages :=
  mem_setInsert.2 (Or.inl rfl)

/-! ### Helper lemmas about `expandLoop` -/

theorem expandLoop_ok_sub {total : Nat} :
    ∀ {l : List Nat} {pages res : List Nat},
      expandLoop total l pages = .ok res → pages ⊆ res := by
  intro l
  induction l with
  | nil =>
    intro pages res h
    cases h
    exact fun _ hx => hx
  | cons p rest ih =>
    intro pages res h
    unfold expandLoop at h
    split at h
    · cases h
    · exact fun x hx => ih h ((subset_setInsert p pages) hx)

theorem expandLoop_ok_mem {total : Nat} :
    ∀ {l : List Nat} {pages res : List Nat} {x : Nat},
      expandLoop total l pages = .ok res → x ∈ res →
      x ∈ pages ∨ (x ∈ l ∧ x ≤ total) := by
  intro l
  induction l with
  | nil =>
    intro pages res x h hx
    cases h
    exact Or.inl hx
  | cons p rest ih =>
    intro pages res x h hx
    unfold expandLoop at h
    split at h
    · cases h
    · rcases ih h hx with h1 | h1
      · rcases mem_setInsert.1 h1 with rfl | h2
        · exact Or.inr ⟨List.mem_cons_self _ _, by omega⟩
        · exact Or.inl h2
      · exact Or.inr ⟨List.mem_cons_of_mem _ h1.1, h1.2⟩

theorem expandLoop_nodup {total : Nat} :
    ∀ {l : List Nat} {pages res : List Nat},
      pages.Nodup → expandLoop total l pages = .ok res → res.Nodup := by
  intro l
  induction l with
  | nil =>
    intro pages res hn h
    cases h
    exact hn
  | cons p rest ih =>
    intro pages res hn h
    unfold expandLoop at h
    split at h
    · cases h
    · exact ih (setInsert_nodup hn) h

theorem expandLoop_cons_ok_mem {total p : Nat} {rest pages res : List Nat}
    (h : expandLoop total (p :: rest) pages = .ok res) : p ∈ res := by
  unfold expandLoop at h
  split at h
  · cases h
  · exact expandLoop_ok_sub h (mem_setInsert_self p pages)

theorem expandLoop_error_shape {total : Nat} :
    ∀ {l : List Nat} {pages : List Nat} {e : SpecErr},
      expandLoop total l pages = .error e → ∃ p, e = .pageExceedsTotal p total := by
  intro l
  induction l with
  | nil =>
    intro pages e h
    cases h
  | cons p rest ih =>
    intro pages e h
    unfold expandLoop at h
    split at h
    · cases h
      exact ⟨p, rfl⟩
    · exact ih h

theorem expandLoop_fail_first {total : Nat} :
    ∀ (len s : Nat) (pages : List Nat), total < s + len →
      expandLoop total (List.range' s (len + 1)) pages
        = .error (.pageExceedsTotal (max s (total + 1)) total) := by
  intro len
  induction len with
  | zero =>
    intro s pages h
    rw [List.range'_one]
    unfold expandLoop
    rw [if_pos (by omega)]
    have : max s (total + 1) = s := by omega
    rw [this]
  | succ n ih =>
    intro s pages h
    rw [List.range'_succ]
    unfold expandLoop
    by_cases hs : s > total
    · rw [if_pos hs]
      have : max s (total + 1) = s := by omega
      rw [this]
    · rw [if_neg hs]
      rw [ih (s + 1) (setInsert s pages) (by omega)]
      have : max (s + 1) (total + 1) = max s (total + 1) := by omega
      rw [this]

/-! ### Helper lemmas about `processPart` and `processParts` -/

theorem range'_mem_bounds {s n x : Nat} (h : x ∈ List.range' s n) : s ≤ x ∧ x < s + n := by
  rw [List.mem_range'] at h
  obtain ⟨i, hi, rfl⟩ := h
  omega

theorem processPart_trimEmpty {total : Nat} {pages : List Nat} {part0 : List Char}
    (h : (pyStrip part0).isEmpty = true) : processPart total pages part0 = .ok pages := by
  unfold processPart
  rw [if_pos h]

theorem processPart_ok_cases {total : Nat} {pages res : List Nat} {part0 : List Char}
    (h : processPart total pages part0 = .ok res) :
    ((pyStrip part0).isEmpty = true ∧ res = pages) ∨
    (∃ start stop : Int, 0 < start ∧ start ≤ stop ∧ start.toNat ∈ res ∧
        expandLoop total (List.range' start.toNat (stop.toNat + 1 - start.toNat)) pages
          = .ok res) ∨
    (∃ page : Int, 0 < page ∧ page ≤ (total : Int) ∧ res = setInsert page.toNat pages) := by
  unfold processPart at h
  split at h
  · cases h
    exact Or.inl ⟨by assumption, rfl⟩
  · split at h
    · split at h
      · split at h
        · cases h
        · split at h
          · rename_i start stop heq1 heq2
            split at h
            · cases h
            · split at h
              · cases h
              · refine Or.inr (Or.inl ⟨start, stop, by omega, by omega, ?_, h⟩)
                have h1 : 0 < start := by omega
                have h2 : start ≤ stop := by omega
                have h3 : ∃ m, stop.toNat + 1 - start.toNat = m + 1 :=
                  ⟨stop.toNat - start.toNat, by omega⟩
                obtain ⟨m, hm⟩ := h3
                rw [hm, List.range'_succ] at h
                exact expandLoop_cons_ok_mem h
          · cases h
      · cases h
    · split at h
      · cases h
      · rename_i page heq
        split at h
        · cases h
        · split at h
          · cases h
          · cases h
            exact Or.inr (Or.inr ⟨page, by omega, by omega, rfl⟩)

theorem processPart_ok_sub {total : Nat} {pages res : List Nat} {part0 : List Char}
    (h : processPart total pages part0 = .ok res) : pages ⊆ res := by
  rcases processPart_ok_cases h with ⟨_, rfl⟩ | ⟨s, e, _, _, _, h1⟩ | ⟨p, _, _, rfl⟩
  · exact fun _ hx => hx
  · exact expandLoop_ok_sub h1
  · exact subset_setInsert _ _

theorem processPart_valid {total : Nat} {pages res : List Nat} {part0 : List Char}
    (hv : ∀ x ∈ pages, 1 ≤ x ∧ x ≤ total)
    (h : processPart total pages part0 = .ok res) : ∀ x ∈ res, 1 ≤ x ∧ x ≤ total := by
  rcases processPart_ok_cases h with ⟨_, rfl⟩ | ⟨s, e, hs, hse, _, h1⟩ | ⟨p, hp, hpt, rfl⟩
  · exact hv
  · intro x hx
    rcases expandLoop_ok_mem h1 hx with h2 | ⟨h2, h3⟩
    · exact hv x h2
    · have h4 := range'_mem_bounds h2
      omega
  · intro x hx
    rcases mem_setInsert.1 hx with rfl | h2
    · omega
    · exact hv x h2

theorem processPart_nodup {total : Nat} {pages res : List Nat} {part0 : List Char}
    (hn : pages.Nodup) (h : processPart total pages part0 = .ok res) : res.Nodup := by
  rcases processPart_ok_cases h with ⟨_, rfl⟩ | ⟨s, e, _, _, _, h1⟩ | ⟨p, _, _, rfl⟩
  · exact hn
  · exact expandLoop_nodup hn h1
  · exact setInsert_nodup hn

theorem processPart_ok_ne_nil {total : Nat} {pages res : List Nat} {part0 : List Char}
    (he : (pyStrip part0).isEmpty = false)
    (h : processPart total pages part0 = .ok res) : res ≠ [] := by
  rcases processPart_ok_cases h with ⟨h1, _⟩ | ⟨s, e, _, _, h1, _⟩ | ⟨p, _, _, rfl⟩
  · rw [he] at h1
    cases h1
  · intro hc
    rw [hc] at h1
    cases h1
  · exact setInsert_ne_nil _ _

theorem processPart_error_not_global {total : Nat} {pages : List Nat} {part0 : List Char}
    {e : SpecErr} (h : processPart total pages part0 = .error e) :
    e ≠ .emptySpec ∧ e ≠ .noValidPages := by
  unfold processPart at h
  split at h
  · cases h
  · split at h
    · split at h
      · split at h
        · cases h
          exact ⟨fun hc => SpecErr.noConfusion hc, fun hc => SpecErr.noConfusion hc⟩
        · split at h
          · split at h
            · cases h
              exact ⟨fun hc => SpecErr.noConfusion hc, fun hc => SpecErr.noConfusion hc⟩
            · split at h
              · cases h
                exact ⟨fun hc => SpecErr.noConfusion hc, fun hc => SpecErr.noConfusion hc⟩
              · obtain ⟨p, rfl⟩ := expandLoop_error_shape h
                exact ⟨fun hc => SpecErr.noConfusion hc, fun hc => SpecErr.noConfusion hc⟩
          · cases h
            exact ⟨fun hc => SpecErr.noConfusion hc, fun hc => SpecErr.noConfusion hc⟩
      · cases h
        exact ⟨fun hc => SpecErr.noConfusion hc, fun hc => SpecErr.noConfusion hc⟩
    · split at h
      · cases h
        exact ⟨fun hc => SpecErr.noConfusion hc, fun hc => SpecErr.noConfusion hc⟩
      · split at h
        · cases h
          exact ⟨fun hc => SpecErr.noConfusion hc, fun hc => SpecErr.noConfusion hc⟩
        · split at h
          · cases h
            exact ⟨fun hc => SpecErr.noConfusion hc, fun hc => SpecErr.noConfusion hc⟩
          · cases h

theorem processParts_ok_sub {total : Nat} :
    ∀ {parts : List (List Char)} {pages res : List Nat},
      processParts total parts pages = .ok res → pages ⊆ res := by
  intro parts
  induction parts with
  | nil =>
    intro pages res h
    cases h
    exact fun _ hx => hx
  | cons part rest ih =>
    intro pages res h
    unfold processParts at h
    split at h
    · cases h
    · rename_i pages1 h1
      exact fun x hx => ih h (processPart_ok_sub h1 hx)

theorem processParts_valid {total : Nat} :
    ∀ {parts : List (List Char)} {pages res : List Nat},
      (∀ x ∈ pages, 1 ≤ x ∧ x ≤ total) →
      processParts total parts pages = .ok res → ∀ x ∈ res, 1 ≤ x ∧ x ≤ total := by
  intro parts
  induction parts with
  | nil =>
    intro pages res hv h
    cases h
    exact hv
  | cons part rest ih =>
    intro pages res hv h
    unfold processParts at h
    split at h
    · cases h
    · rename_i pages1 h1
      exact ih (processPart_valid hv h1) h

theorem processParts_nodup {total : Nat} :
    ∀ {parts : List (List Char)} {pages res : List Nat},
      pages.Nodup → processParts total parts pages = .ok res → res.Nodup := by
  intro parts
  induction parts with
  | nil =>
    intro pages res hn h
    cases h
    exact hn
  | cons part rest ih =>
    intro pages res hn h
    unfold processParts at h
    split at h
    · cases h
    · rename_i pages1 h1
      exact ih (processPart_nodup hn h1) h

theorem processParts_error_not_global {total : Nat} :
    ∀ {parts : List (List Char)} {pages : List Nat} {e : SpecErr},
      processParts total parts pages = .error e →
      e ≠ .emptySpec ∧ e ≠ .noValidPages := by
  intro parts
  induction parts with
  | nil =>
    intro pages e h
    cases h
  | cons part rest ih =>
    intro pages e h
    unfold processParts at h
    split at h
    · cases h
      rename_i h1
      exact processPart_error_not_global h1
    · exact ih h

theorem processParts_all_trimEmpty {total : Nat} :
    ∀ {parts : List (List Char)} {pages : List Nat},
      (∀ part ∈ parts, (pyStrip part).isEmpty = true) →
      processParts total parts pages = .ok pages := by
  intro parts
  induction parts with
  | nil =>
    intro pages _
    rfl
  | cons part rest ih =>
    intro pages hall
    unfold processParts
    rw [processPart_trimEmpty (hall part (List.mem_cons_self _ _))]
    exact ih fun p hp => hall p (List.mem_cons_of_mem _ hp)

theorem processParts_ok_nil {total : Nat} :
    ∀ {parts : List (List Char)} {pages : List Nat},
      processParts total parts pages = .ok [] →
      pages = [] ∧ ∀ part ∈ parts, (pyStrip part).isEmpty = true := by
  intro parts
  induction parts with
  | nil =>
    intro pages h
    cases h
    exact ⟨rfl, fun p hp => absurd hp (List.not_mem_nil p)⟩
  | cons part rest ih =>
    intro pages h
    unfold processParts at h
    split at h
    · cases h
    · rename_i pages1 h1
      obtain ⟨hp1, hrest⟩ := ih h
      subst hp1
      have he : (pyStrip part).isEmpty = true := by
        by_contra hc
        exact processPart_ok_ne_nil (Bool.not_eq_true _ ▸ Bool.of_not_eq_true hc) h1 rfl
      have hpages : pages = [] := by
        rw [processPart_trimEmpty he] at h1
        cases h1
        rfl
      exact ⟨hpages, fun p hp => by
        rcases List.mem_cons.1 hp with rfl | hp2
        · exact he
        · exact hrest p hp2⟩

/-! ### Helper lemmas about `parse_pagespec` and `pages_to_keep` -/

theorem parse_ok_elim {spec : List Char} {total : Nat} {l : List Nat}
    (h : parse_pagespec spec total = .ok l) :
    ∃ pages, processParts total (splitOnChar ',' (pyStrip spec)) [] = .ok pages ∧
      pages ≠ [] ∧ l = pages.insertionSort (· ≤ ·) ∧ (pyStrip spec).isEmpty = false := by
  unfold parse_pagespec at h
  split at h
  · cases h
  · rename_i hne
    split at h
    · cases h
    · rename_i pages hp
      split at h
      · cases h
      · cases h
        refine ⟨pages, hp, by assumption, rfl, ?_⟩
        cases hb : (pyStrip spec).isEmpty
        · rfl
        · exact absurd hb hne

theorem parse_valid {spec : List Char} {total : Nat} {l : List Nat}
    (h : parse_pagespec spec total = .ok l) : ∀ x ∈ l, 1 ≤ x ∧ x ≤ total := by
  obtain ⟨pages, hp, _, rfl, _⟩ := parse_ok_elim h
  intro x hx
  have hx1 : x ∈ pages := (List.perm_insertionSort (· ≤ ·) pages).mem_iff.1 hx
  exact processParts_valid (fun y hy => absurd hy (List.not_mem_nil y)) hp x hx1

theorem parse_nodup {spec : List Char} {total : Nat} {l : List Nat}
    (h : parse_pagespec spec total = .ok l) : l.Nodup := by
  obtain ⟨pages, hp, _, rfl, _⟩ := parse_ok_elim h
  exact (List.perm_insertionSort (· ≤ ·) pages).nodup_iff.2
    (processParts_nodup List.nodup_nil hp)

theorem parse_sorted_lt {spec : List Char} {total : Nat} {l : List Nat}
    (h : parse_pagespec spec total = .ok l) : l.Sorted (· < ·) := by
  obtain ⟨pages, hp, _, hl, _⟩ := parse_ok_elim h
  have hs : l.Sorted (· ≤ ·) := hl ▸ List.sorted_insertionSort (· ≤ ·) pages
  exact hs.lt_of_le (parse_nodup h)

theorem parse_ok_ne_nil {spec : List Char} {total : Nat} {l : List Nat}
    (h : parse_pagespec spec total = .ok l) : l ≠ [] := by
  obtain ⟨pages, hp, hne, rfl, _⟩ := parse_ok_elim h
  intro hc
  have hperm := List.perm_insertionSort (· ≤ ·) pages
  rw [hc] at hperm
  exact hne hperm.symm.eq_nil

theorem parse_emptySpec_iff {spec : List Char} {total : Nat} :
    parse_pagespec spec total = .error .emptySpec ↔ spec.all Char.isWhitespace = true := by
  constructor
  · intro h
    unfold parse_pagespec at h
    split at h
    · rename_i he
      rw [← pyStrip_isEmpty_eq]
      exact he
    · exfalso
      split at h
      · cases h
        rename_i h1
        exact (processParts_error_not_global h1).1 rfl
      · split at h
        · simp at h
        · cases h
  · intro h
    unfold parse_pagespec
    rw [if_pos]
    rw [pyStrip_isEmpty_eq]
    exact h

theorem parse_noValidPages_iff {spec : List Char} {total : Nat} :
    parse_pagespec spec total = .error .noValidPages ↔
      (spec.all Char.isWhitespace = false ∧
        spec.all (fun c => (c = ',') || c.isWhitespace) = true) := by
  have hws : ∀ c : Char, c.isWhitespace = true →
      (fun c => (decide (c = ',')) || c.isWhitespace) c = true := by
    intro c hc
    simp [hc]
  constructor
  · intro h
    unfold parse_pagespec at h
    split at h
    · simp at h
    · rename_i hne
      have hne1 : (pyStrip spec).isEmpty = false := by
        cases hb : (pyStrip spec).isEmpty
        · rfl
        · exact absurd hb hne
      split at h
      · cases h
        rename_i h1
        exact absurd rfl (processParts_error_not_global h1).2
      · rename_i pages h1
        split at h
        · rename_i hpnil
          rw [hpnil] at h1
          obtain ⟨-, hall⟩ := processParts_ok_nil h1
          constructor
          · rw [← pyStrip_isEmpty_eq]
            exact hne1
          · have h2 : ((splitOnChar ',' (pyStrip spec)).all
                fun p => p.all Char.isWhitespace) = true := by
              rw [List.all_eq_true]
              intro p hp
              rw [← pyStrip_isEmpty_eq]
              exact hall p hp
            rw [all_splitOnChar_all_ws] at h2
            rw [pyStrip_all_eq hws spec]
            exact h2
        · cases h
  · rintro ⟨h1, h2⟩
    have hne : (pyStrip spec).isEmpty = false := by
      rw [pyStrip_isEmpty_eq]
      exact h1
    have hall : ∀ part ∈ splitOnChar ',' (pyStrip spec), (pyStrip part).isEmpty = true := by
      have h3 : (pyStrip spec).all (fun c => (c = ',') || c.isWhitespace) = true := by
        rw [← pyStrip_all_eq hws spec]
        exact h2
      rw [← all_splitOnChar_all_ws] at h3
      rw [List.all_eq_true] at h3
      intro part hp
      rw [pyStrip_isEmpty_eq]
      exact h3 part hp
    unfold parse_pagespec
    rw [if_neg (by rw [hne]; exact Bool.false_ne_true)]
    rw [processParts_all_trimEmpty hall]
    rfl

theorem keep_of_parse_error {spec : List Char} {total : Nat} {mode : List Char} {e : SpecErr}
    (h : parse_pagespec spec total = .error e) :
    pages_to_keep spec total mode = .error (.pageSpecError e) := by
  unfold pages_to_keep
  rw [h]

theorem extract_eq_parse_ok {spec : List Char} {total : Nat} {l : List Nat}
    (h : parse_pagespec spec total = .ok l) :
    pages_to_keep spec total ("extract".toList) = .ok l := by
  unfold pages_to_keep
  rw [h]
  rfl

theorem delete_eq_ite {spec : List Char} {total : Nat} {l : List Nat}
    (h : parse_pagespec spec total = .ok l) :
    pages_to_keep spec total ("delete".toList) =
      (if (List.range' 1 total).filter (fun p => !(l.contains p)) = []
       then .error (.pageSpecError .cannotDeleteAll)
       else .ok (((List.range' 1 total).filter
          (fun p => !(l.contains p))).insertionSort (· ≤ ·))) := by
  unfold pages_to_keep
  rw [h]
  rfl

theorem mem_keepList {total p : Nat} {l : List Nat} :
    p ∈ (List.range' 1 total).filter (fun q => !(l.contains q)) ↔
      (1 ≤ p ∧ p ≤ total ∧ p ∉ l) := by
  rw [List.mem_filter]
  constructor
  · rintro ⟨h1, h2⟩
    have h3 := range'_mem_bounds h1
    refine ⟨by omega, by omega, ?_⟩
    intro hc
    rw [Bool.not_eq_true', ← Bool.not_eq_true] at h2
    exact h2 (List.elem_iff.2 hc)
  · rintro ⟨h1, h2, h3⟩
    refine ⟨?_, ?_⟩
    · rw [List.mem_range']
      exact ⟨p - 1, by omega, by omega⟩
    · rw [Bool.not_eq_true', ← Bool.not_eq_true]
      intro hc
      exact h3 (List.elem_iff.1 hc)

example : parse_pagespec "1,3,5".toList 10 = .ok [1, 3, 5] := by decide
example : parse_pagespec "1-5".toList 10 = .ok [1, 2, 3, 4, 5] := by decide
example : parse_pagespec "1,3-5,7".toList 10 = .ok [1, 3, 4, 5, 7] := by decide
example : parse_pagespec " 1 , 3 - 5 ".toList 10 = .ok [1, 3, 4, 5] := by decide
example : parse_pagespec "5-10".toList 7 = .error (.pageExceedsTotal 8 7) := by decide
example : parse_pagespec "0-3".toList 10 = .error (.nonPositiveRange "0-3".toList) := by decide
example : parse_pagespec "".toList 5 = .error .emptySpec := by decide
example : parse_pagespec "   ".toList 5 = .error .emptySpec := by decide
example : parse_pagespec ",,1,,".toList 5 = .ok [1] := by decide
example : pages_to_keep "1-10".toList 10 "delete".toList
    = .error (.pageSpecError .cannotDeleteAll) := by decide
example : pages_to_keep "2".toList 3 "delete".toList = .ok [1, 3] := by decide
example : pages_to_keep "2".toList 3 "extract".toList = .ok [2] := by decide
example : pages_to_keep "5,1,3".toList 5 "extract".toList = .ok [1, 3, 5] := by decide
example : parse_pagespec "-".toList 5 = .error (.invalidRangeFormat "-".toList) := by decide
example : parse_pagespec "a-b".toList 5 = .error (.invalidNumbersInRange "a-b".toList) := by decide
example : parse_pagespec "1-2-3".toList 5 = .error (.invalidRangeFormat "1-2-3".toList) := by decide
example : parse_pagespec " , ,, ".toList 5 = .error .noValidPages := by decide

/-! ### Claim theorems -/

/-- C1: For every spec string on which `parse_pagespec spec total_pages` succeeds,
every value in the returned list lies in `[1, total_pages]` and the list contains
no duplicates. -/
theorem parse_pagespec_bounds_nodup :
    ∀ (spec : List Char) (total : Nat) (l : List Nat),
      parse_pagespec spec total = .ok l →
      (∀ p ∈ l, 1 ≤ p ∧ p ≤ total) ∧ l.Nodup :=
  fun _ _ _ h => ⟨parse_valid h, parse_nodup h⟩

theorem parse_pagespec_bounds_nodup_witness :
    (∀ p ∈ ([1, 3, 4, 5, 7] : List Nat), 1 ≤ p ∧ p ≤ 10) ∧
      ([1, 3, 4, 5, 7] : List Nat).Nodup :=
  parse_pagespec_bounds_nodup ("1,3-5,7".toList) 10 [1, 3, 4, 5, 7] (by decide)

/-- C2 counterexample: the claim says extract mode returns the distinct named
pages in first-occurrence order, so `"5,1,3"` would give `[5, 1, 3]`; the code
returns the numerically sorted list `[1, 3, 5]` instead. -/
theorem extract_not_first_occurrence_order :
    pages_to_keep ("5,1,3".toList) 5 ("extract".toList) = .ok [1, 3, 5] ∧
      ([1, 3, 5] : List Nat) ≠ [5, 1, 3] := by
  decide

/-- C2 amended: for every spec that parses successfully, extract mode returns
the parse result unchanged — the distinct named pages sorted in ascending
numeric order, discarding first-occurrence order; e.g. `"5,1,3"` gives
`[1, 3, 5]`. -/
theorem extract_returns_sorted_parse_result :
    (∀ (spec : List Char) (total : Nat) (l : List Nat),
        parse_pagespec spec total = .ok l →
        pages_to_keep spec total ("extract".toList) = .ok l ∧ l.Sorted (· < ·)) ∧
      pages_to_keep ("5,1,3".toList) 5 ("extract".toList) = .ok [1, 3, 5] :=
  ⟨fun _ _ _ h => ⟨extract_eq_parse_ok h, parse_sorted_lt h⟩, by decide⟩

theorem extract_returns_sorted_parse_result_witness :
    pages_to_keep ("5,1,3".toList) 5 ("extract".toList) = .ok [1, 3, 5] ∧
      List.Sorted (· < ·) ([1, 3, 5] : List Nat) :=
  extract_returns_sorted_parse_result.1 ("5,1,3".toList) 5 [1, 3, 5] (by decide)

/-- C3: For every spec that parses successfully to a page set, delete mode
fails with the cannot-delete-all-pages `PageSpecError` exactly when the
complement `{1..total_pages} \ S` is empty, and otherwise returns exactly that
complement in strictly ascending order. -/
theorem delete_keeps_complement_sorted :
    ∀ (spec : List Char) (total : Nat) (l : List Nat),
      parse_pagespec spec total = .ok l →
      ((∀ p, 1 ≤ p → p ≤ total → p ∈ l) →
        pages_to_keep spec total ("delete".toList)
          = .error (.pageSpecError .cannotDeleteAll)) ∧
      ((∃ p, 1 ≤ p ∧ p ≤ total ∧ p ∉ l) →
        ∃ keep, pages_to_keep spec total ("delete".toList) = .ok keep) ∧
      (∀ keep, pages_to_keep spec total ("delete".toList) = .ok keep →
        keep.Sorted (· < ·) ∧ ∀ p, p ∈ keep ↔ (1 ≤ p ∧ p ≤ total ∧ p ∉ l)) := by
  intro spec total l h
  have heq := delete_eq_ite h
  refine ⟨?_, ?_, ?_⟩
  · intro hall
    rw [heq, if_pos]
    rw [List.filter_eq_nil_iff]
    intro a ha
    have hb := range'_mem_bounds ha
    have hmem : a ∈ l := hall a (by omega) (by omega)
    simpa using hmem
  · rintro ⟨p, hp1, hp2, hp3⟩
    rw [heq, if_neg]
    · exact ⟨_, rfl⟩
    · intro hc
      have hm : p ∈ (List.range' 1 total).filter (fun q => !(l.contains q)) :=
        mem_keepList.2 ⟨hp1, hp2, hp3⟩
      rw [hc] at hm
      cases hm
  · intro keep hk
    rw [heq] at hk
    by_cases hnil : (List.range' 1 total).filter (fun q => !(l.contains q)) = []
    · rw [if_pos hnil] at hk
      cases hk
    · rw [if_neg hnil] at hk
      have hkeep := Except.ok.inj hk
      subst hkeep
      constructor
      · have hnd : ((List.range' 1 total).filter (fun q => !(l.contains q))).Nodup :=
          (List.nodup_range' 1 total).filter _
        have hnd2 := (List.perm_insertionSort (· ≤ ·)
          ((List.range' 1 total).filter (fun q => !(l.contains q)))).nodup_iff.2 hnd
        exact (List.sorted_insertionSort (· ≤ ·) _).lt_of_le hnd2
      · intro p
        rw [(List.perm_insertionSort (· ≤ ·) _).mem_iff]
        exact mem_keepList

theorem delete_keeps_complement_sorted_witness :
    List.Sorted (· < ·) ([1, 3] : List Nat) ∧
      ∀ p, p ∈ ([1, 3] : List Nat) ↔ (1 ≤ p ∧ p ≤ 3 ∧ p ∉ ([2] : List Nat)) :=
  (delete_keeps_complement_sorted ("2".toList) 3 [2] (by decide)).2.2 [1, 3] (by decide)

/-- C9: Whenever `parse_pagespec` succeeds, the returned list is strictly
increasing, and the extract-mode keep-list is the parse result returned
unchanged (hence also strictly increasing). -/
theorem parse_result_strictly_increasing :
    ∀ (spec : List Char) (total : Nat) (l : List Nat),
      parse_pagespec spec total = .ok l →
      l.Sorted (· < ·) ∧ pages_to_keep spec total ("extract".toList) = .ok l :=
  fun _ _ _ h => ⟨parse_sorted_lt h, extract_eq_parse_ok h⟩

theorem parse_result_strictly_increasing_witness :
    List.Sorted (· < ·) ([1, 2, 3] : List Nat) ∧
      pages_to_keep ("3,1,2".toList) 3 ("extract".toList) = .ok [1, 2, 3] :=
  parse_result_strictly_increasing ("3,1,2".toList) 3 [1, 2, 3] (by decide)

/-- C4: For every range token `start-end` with `0 < start ≤ end`, the range
expansion validates each value against `total_pages` one at a time and fails
with the page-exceeds-total `PageSpecError` at the first value greater than
`total_pages` (namely `max start (total_pages + 1)`); in particular
`parse_pagespec "5-10" 7` fails on page 8. -/
theorem range_validation_fail_fast :
    (∀ (start stop : Int) (total : Nat) (pages : List Nat),
        0 < start → start ≤ stop → (total : Int) < stop →
        expandLoop total (List.range' start.toNat (stop.toNat + 1 - start.toNat)) pages
          = .error (.pageExceedsTotal (max start.toNat (total + 1)) total)) ∧
      parse_pagespec ("5-10".toList) 7 = .error (.pageExceedsTotal 8 7) := by
  constructor
  · intro start stop total pages h1 h2 h3
    obtain ⟨m, hm⟩ : ∃ m, stop.toNat + 1 - start.toNat = m + 1 :=
      ⟨stop.toNat - start.toNat, by omega⟩
    rw [hm]
    apply expandLoop_fail_first
    omega
  · decide

theorem range_validation_fail_fast_witness :
    expandLoop 7 (List.range' (5 : Int).toNat ((10 : Int).toNat + 1 - (5 : Int).toNat)) []
        = .error (.pageExceedsTotal (max (5 : Int).toNat (7 + 1)) 7) ∧
      parse_pagespec ("5-10".toList) 7 = .error (.pageExceedsTotal 8 7) :=
  ⟨range_validation_fail_fast.1 5 10 7 [] (by decide) (by decide) (by decide),
   range_validation_fail_fast.2⟩

/-- C5: Empty comma-separated tokens are silently skipped
(`parse_pagespec ",,1,," 5 = ok [1]`), and the no-valid-pages `PageSpecError`
is raised if and only if the input is not whitespace-only yet consists
entirely of commas and whitespace (every token empty after trimming). -/
theorem empty_tokens_skipped_iff_noValidPages :
    parse_pagespec (",,1,,".toList) 5 = .ok [1] ∧
      ∀ (spec : List Char) (total : Nat),
        (parse_pagespec spec total = .error .noValidPages ↔
          (spec.all Char.isWhitespace = false ∧
            spec.all (fun c => (c = ',') || c.isWhitespace) = true)) :=
  ⟨by decide, fun _ _ => parse_noValidPages_iff⟩

/-- C7: `parse_pagespec` fails with the empty-specification `PageSpecError`
if and only if the input is empty or consists only of whitespace; any input
with a non-whitespace character proceeds past this check. -/
theorem emptySpec_iff_whitespace_only :
    ∀ (spec : List Char) (total : Nat),
      parse_pagespec spec total = .error .emptySpec ↔
        spec.all Char.isWhitespace = true :=
  fun _ _ => parse_emptySpec_iff

/-- C8: For every spec that parses successfully and every mode other than
`"extract"` and `"delete"`, `pages_to_keep` raises the programmer-error kind
(`ValueError`), which is distinct from the validation kind (`PageSpecError`). -/
theorem invalid_mode_value_error :
    ∀ (spec : List Char) (total : Nat) (mode : List Char) (l : List Nat),
      parse_pagespec spec total = .ok l →
      mode ≠ "extract".toList → mode ≠ "delete".toList →
      pages_to_keep spec total mode = .error (.valueError mode) ∧
        (PyErr.valueError mode).isValueError = true ∧
        ∀ e, (PyErr.pageSpecError e).isValueError = false := by
  intro spec total mode l h h1 h2
  refine ⟨?_, rfl, fun e => rfl⟩
  have heq : pages_to_keep spec total mode =
      (if mode = "extract".toList then .ok l
       else if mode = "delete".toList then
         (if (List.range' 1 total).filter (fun p => !(l.contains p)) = []
          then .error (.pageSpecError .cannotDeleteAll)
          else .ok (((List.range' 1 total).filter
            (fun p => !(l.contains p))).insertionSort (· ≤ ·)))
       else .error (.valueError mode)) := by
    unfold pages_to_keep
    rw [h]
  rw [heq, if_neg h1, if_neg h2]

theorem invalid_mode_value_error_witness :
    pages_to_keep ("1".toList) 2 ("merge".toList) = .error (.valueError ("merge".toList)) ∧
      (PyErr.valueError ("merge".toList)).isValueError = true ∧
      ∀ e, (PyErr.pageSpecError e).isValueError = false :=
  invalid_mode_value_error ("1".toList) 2 ("merge".toList) [1]
    (by decide) (by decide) (by decide)

/-- C10: With `total_pages = 0`, `parse_pagespec` fails on every input —
whitespace-only input hits the empty-specification check, commas-and-whitespace
input hits the no-valid-pages check, and every input naming a page fails since
pages are at least 1 — hence `pages_to_keep` never succeeds in any mode. -/
theorem zero_total_pages_always_fails :
    ∀ spec : List Char,
      (spec.all Char.isWhitespace = true → parse_pagespec spec 0 = .error .emptySpec) ∧
      (spec.all Char.isWhitespace = false →
        spec.all (fun c => (c = ',') || c.isWhitespace) = true →
        parse_pagespec spec 0 = .error .noValidPages) ∧
      (∀ l, parse_pagespec spec 0 ≠ .ok l) ∧
      (∀ mode l, pages_to_keep spec 0 mode ≠ .ok l) := by
  intro spec
  have h3 : ∀ l, parse_pagespec spec 0 ≠ .ok l := by
    intro l hc
    have hne := parse_ok_ne_nil hc
    have hv := parse_valid hc
    cases l with
    | nil => exact hne rfl
    | cons x xs =>
      have := hv x (List.mem_cons_self _ _)
      omega
  refine ⟨fun h => parse_emptySpec_iff.2 h,
    fun h1 h2 => parse_noValidPages_iff.2 ⟨h1, h2⟩, h3, ?_⟩
  intro mode l hc
  rcases hp : parse_pagespec spec 0 with e | l2
  · unfold pages_to_keep at hc
    rw [hp] at hc
    cases hc
  · exact h3 l2 hp

theorem zero_total_pages_always_fails_witness :
    parse_pagespec ("  ".toList) 0 = .error .emptySpec ∧
      parse_pagespec (", ,".toList) 0 = .error .noValidPages :=
  ⟨(zero_total_pages_always_fails ("  ".toList)).1 (by decide),
   (zero_total_pages_always_fails (", ,".toList)).2.1 (by decide) (by decide)⟩

/-- C6: For every non-empty token containing `-`, the parser splits on `-` and
fails with the invalid-range-format `PageSpecError` unless there are exactly
two non-empty sides, fails with the invalid-numbers-in-range `PageSpecError`
when both sides are non-empty but one is not numeric, and a lone `-` token
fails as invalid range format (two empty sides). -/
theorem range_token_format_errors :
    (∀ (total : Nat) (pages : List Nat) (part0 : List Char),
        (pyStrip part0).isEmpty = false →
        (pyStrip part0).contains '-' = true →
        (match splitOnChar '-' (pyStrip part0) with
          | [s0, e0] =>
            (((pyStrip s0).isEmpty = true ∨ (pyStrip e0).isEmpty = true) →
              processPart total pages part0
                = .error (.invalidRangeFormat (pyStrip part0))) ∧
            ((pyStrip s0).isEmpty = false → (pyStrip e0).isEmpty = false →
              (pyIntOfChars (pyStrip s0) = none ∨ pyIntOfChars (pyStrip e0) = none) →
              processPart total pages part0
                = .error (.invalidNumbersInRange (pyStrip part0)))
          | _ => processPart total pages part0
                = .error (.invalidRangeFormat (pyStrip part0)))) ∧
      parse_pagespec ("-".toList) 5 = .error (.invalidRangeFormat ['-']) := by
  constructor
  · intro total pages part0 hne hdash
    have hred : processPart total pages part0 =
        (match splitOnChar '-' (pyStrip part0) with
          | [s0, e0] =>
            if (pyStrip s0).isEmpty || (pyStrip e0).isEmpty then
              Except.error (.invalidRangeFormat (pyStrip part0))
            else
              match pyIntOfChars (pyStrip s0), pyIntOfChars (pyStrip e0) with
              | some start, some stop =>
                if start ≤ 0 ∨ stop ≤ 0 then
                  Except.error (.nonPositiveRange (pyStrip part0))
                else if start > stop then
                  Except.error (.rangeStartGreaterEnd start stop)
                else expandLoop total
                  (List.range' start.toNat (stop.toNat + 1 - start.toNat)) pages
              | _, _ => Except.error (.invalidNumbersInRange (pyStrip part0))
          | _ => Except.error (.invalidRangeFormat (pyStrip part0))) := by
      unfold processPart
      rw [if_neg (by rw [hne]; exact Bool.false_ne_true), if_pos hdash]
    rcases hsp : splitOnChar '-' (pyStrip part0) with _ | ⟨s0, _ | ⟨e0, _ | ⟨x, xs⟩⟩⟩
    · rw [hsp] at hred
      exact hred
    · rw [hsp] at hred
      exact hred
    · rw [hsp] at hred
      have hred2 : processPart total pages part0 =
          (if (pyStrip s0).isEmpty || (pyStrip e0).isEmpty then
            Except.error (SpecErr.invalidRangeFormat (pyStrip part0))
          else
            match pyIntOfChars (pyStrip s0), pyIntOfChars (pyStrip e0) with
            | some start, some stop =>
              if start ≤ 0 ∨ stop ≤ 0 then
                Except.error (SpecErr.nonPositiveRange (pyStrip part0))
              else if start > stop then
                Except.error (SpecErr.rangeStartGreaterEnd start stop)
              else expandLoop total
                (List.range' start.toNat (stop.toNat + 1 - start.toNat)) pages
            | _, _ => Except.error (SpecErr.invalidNumbersInRange (pyStrip part0))) := hred
      constructor
      · intro hor
        have hb : ((pyStrip s0).isEmpty || (pyStrip e0).isEmpty) = true := by
          rcases hor with h | h
          · rw [h]
            rfl
          · rw [h]
            simp
        rw [hred2, if_pos hb]
      · intro hs he hnone
        have hb : ((pyStrip s0).isEmpty || (pyStrip e0).isEmpty) = false := by
          rw [hs, he]
          rfl
        rw [hred2, if_neg (by rw [hb]; exact Bool.false_ne_true)]
        rcases ha : pyIntOfChars (pyStrip s0) with _ | sv <;>
          rcases hb2 : pyIntOfChars (pyStrip e0) with _ | ev
        · rfl
        · rfl
        · rfl
        · rcases hnone with h | h
          · rw [ha] at h
            cases h
          · rw [hb2] at h
            cases h
    · rw [hsp] at hred
      exact hred
  · decide

theorem range_token_format_errors_witness :
    processPart 5 [] ("a-b".toList) = .error (.invalidNumbersInRange ("a-b".toList)) ∧
      processPart 5 [] ("1-2-3".toList) = .error (.invalidRangeFormat ("1-2-3".toList)) := by
  have h1 := range_token_format_errors.1 5 [] ("a-b".toList) (by decide) (by decide)
  have h2 := range_token_format_errors.1 5 [] ("1-2-3".toList) (by decide) (by decide)
  exact ⟨h1.2 (by decide) (by decide) (Or.inl (by decide)), h2⟩
